import Mathlib

/-!
Verification of the Web3Wallet keystore core.

This file is a shallow embedding of the repository sources
`src/utils.rs`, `src/config.rs`, `src/models/wallet.rs`,
`src/models/keystore.rs` and `src/services/crypto.rs`, together with
theorems about the embedded operations.

External crates (argon2, pbkdf2, aes-gcm, hmac/sha2, serde_json, the
ethers/bip39 HD-derivation stack and the hex codec) are not part of the
repository.  The hex codec is small and fully specified, so it is
implemented directly; the cryptographic and serialization primitives are
abstracted as function-valued parameters (`Primitives`, `HdPrimitives`)
and the facts the theorems need about them (AEAD decrypt inverts encrypt,
serde round-trips, outputs are bytes, ...) appear as explicit hypotheses.
Concrete executable instances of those parameter structures are provided
so that every theorem with hypotheses can be evaluated on closed inputs.

Machine integers (`u8`, `u32`) are modelled as `Nat` with explicit range
side conditions (`b < 256`, `v < 2 ^ 32`) where the ranges matter.
-/

namespace Web3Wallet

/-- Bytes are modelled as lists of naturals, one entry per `u8`.  Range
conditions `b < 256` are carried explicitly where byte-ness matters. -/
abbrev Bytes := List Nat

/-! ### Hex codec (model of the Rust `hex` crate used by the keystore) -/

/-- Lowercase hex digit for a value below 16, as produced by `hex::encode`. -/
def hexChar (n : Nat) : Char :=
  match n with
  | 0 => Char.ofNat 48 | 1 => Char.ofNat 49 | 2 => Char.ofNat 50 | 3 => Char.ofNat 51
  | 4 => Char.ofNat 52 | 5 => Char.ofNat 53 | 6 => Char.ofNat 54 | 7 => Char.ofNat 55
  | 8 => Char.ofNat 56 | 9 => Char.ofNat 57 | 10 => Char.ofNat 97 | 11 => Char.ofNat 98
  | 12 => Char.ofNat 99 | 13 => Char.ofNat 100 | 14 => Char.ofNat 101 | _ => Char.ofNat 102

/-- Value of one hex digit character; `hex::decode` accepts both cases. -/
def hexDigitVal (c : Char) : Option Nat :=
  let n := c.toNat
  if 48 ≤ n ∧ n ≤ 57 then some (n - 48)
  else if 97 ≤ n ∧ n ≤ 102 then some (n - 97 + 10)
  else if 65 ≤ n ∧ n ≤ 70 then some (n - 65 + 10)
  else none

/-- Two lowercase hex characters for one byte. -/
def hexEncodeByte (b : Nat) : List Char := [hexChar (b / 16), hexChar (b % 16)]

/-- Model of `hex::encode` (lowercase). -/
def hexEncode (bs : Bytes) : String := String.mk (bs.flatMap hexEncodeByte)

/-- Model of `hex::decode` on the character list: pairs of hex digits;
odd length or a non-hex character fails. -/
def hexDecodeList : List Char → Option Bytes
  | [] => some []
  | [_] => none
  | c1 :: c2 :: rest =>
    match hexDigitVal c1, hexDigitVal c2, hexDecodeList rest with
    | some h, some l, some bs => some ((16 * h + l) :: bs)
    | _, _, _ => none

/-- Model of `hex::decode`. -/
def hexDecode (s : String) : Option Bytes := hexDecodeList s.data

/-! ### Base-`b` digit codec

`Nat.digits` from Mathlib is defined by well-founded recursion and does not
reduce inside the kernel, so a fuelled structural variant is used: the fuel
is the number itself, which bounds the recursion depth. -/

/-- Little-endian base-`b` digits of the second argument, with explicit fuel. -/
def digitsGo (b : Nat) : Nat → Nat → List Nat
  | _, 0 => []
  | 0, _ + 1 => []
  | f + 1, n + 1 => ((n + 1) % b) :: digitsGo b f ((n + 1) / b)

/-- Little-endian base-`b` digits of `n` (empty for `n = 0`). -/
def natDigits (b n : Nat) : List Nat := digitsGo b n n

/-- Value of a little-endian digit list in base `b`. -/
def digitsVal (b : Nat) : List Nat → Nat
  | [] => 0
  | d :: l => d + b * digitsVal b l

/-! ### Self-delimiting sequences of naturals over bytes

Used by the executable witness instance of the wallet serializer: each
natural is sent as its base-255 digits (all `< 255`) followed by the
terminator byte `255`. -/

/-- One self-delimited chunk: base-255 digits then the terminator `255`. -/
def chunk (n : Nat) : Bytes := natDigits 255 n ++ [255]

/-- Split a byte list at the first `255`: the part before it and the rest. -/
def splitAtTerm : Bytes → Option (Bytes × Bytes)
  | [] => none
  | d :: rest =>
    if d = 255 then some ([], rest)
    else
      match splitAtTerm rest with
      | some (p, s) => some (d :: p, s)
      | none => none

/-- Decode a concatenation of chunks back into the list of naturals
(with explicit fuel bounding the number of chunks). -/
def decodeNatsGo : Nat → Bytes → Option (List Nat)
  | _, [] => some []
  | 0, _ :: _ => none
  | f + 1, d :: rest =>
    match splitAtTerm (d :: rest) with
    | none => none
    | some (p, s) =>
      match decodeNatsGo f s with
      | none => none
      | some l => some (digitsVal 255 p :: l)

/-- Decode a concatenation of chunks back into the list of naturals. -/
def decodeNats (bs : Bytes) : Option (List Nat) := decodeNatsGo bs.length bs

/-! ### String codec over naturals

An injective, executable encoding of strings as naturals, used by the
concrete witness instances.  Each character is sent as `toNat + 1` so the
top digit is never zero. -/

/-- Base used for the character digit encoding (one above the Unicode bound). -/
def charBase : Nat := 1114113

/-- Injective encoding of a string as a natural number. -/
def strNat (s : String) : Nat := digitsVal charBase (s.data.map fun c => c.toNat + 1)

/-- Decoder, left inverse of `strNat`. -/
def strOfNat (n : Nat) : String :=
  String.mk ((natDigits charBase n).map fun d => Char.ofNat (d - 1))

/-- Encoding of an optional string as a natural number. -/
def optNat : Option String → Nat
  | none => 0
  | some s => strNat s + 1

/-- Decoder, left inverse of `optNat`. -/
def optOfNat : Nat → Option String
  | 0 => none
  | m + 1 => some (strOfNat m)

/-! ### Error model (`src/errors.rs`)

Error values in the source carry message payloads; the claims only
distinguish error kinds, so the embedding keeps one constructor per
variant that the embedded code can produce. -/

/-- Error kinds produced by the embedded operations. -/
inductive WErr where
  | invalidMnemonic
  | invalidPrivateKey
  | decryptionFailed
  | dataCorruption
  | invalidDerivationPath
  | kdfFailed
  | addressGenerationFailed
  | invalidAddressFormat
  | invalidKeystoreSchema
deriving DecidableEq

/-- Result type used throughout (`WalletResult<T>` in the source). -/
abbrev WalletResult (α : Type) := Except WErr α

/-! ### Configuration constants (`src/config.rs`) -/

/-- Default HD derivation path for Ethereum, `m/44'/60'/0'/0` (BIP44). -/
def DEFAULT_DERIVATION_PATH : String := "m/44\x27/60\x27/0\x27/0"

/-- Supported networks. -/
def SUPPORTED_NETWORKS : List String := ["mainnet", "sepolia", "goerli", "holesky"]

/-- Default Argon2id memory cost in KB. -/
def DEFAULT_ARGON2_MEMORY : Nat := 47104

/-- Default Argon2id time cost. -/
def DEFAULT_ARGON2_ITERATIONS : Nat := 1

/-- Default Argon2id parallelism. -/
def DEFAULT_ARGON2_PARALLELISM : Nat := 1

/-- Reduced-memory Argon2id memory cost in KB. -/
def LOW_MEMORY_ARGON2_MEMORY : Nat := 19456

/-- Reduced-memory Argon2id time cost. -/
def LOW_MEMORY_ARGON2_ITERATIONS : Nat := 2

/-- Salt length for key derivation. -/
def SALT_LENGTH : Nat := 32

/-- AES-GCM nonce length. -/
def NONCE_LENGTH : Nat := 12

/-- Key length for AES-256. -/
def KEY_LENGTH : Nat := 32

/-- Membership of a network name in the supported set. -/
def is_supported_network (network : String) : Bool := SUPPORTED_NETWORKS.contains network

/-- Membership of a word count in the supported set. -/
def is_supported_word_count (count : Nat) : Bool := ([12, 24] : List Nat).contains count

/-- Argon2 configuration selection: `(memory, iterations, parallelism)`. -/
def get_argon2_config (useLowMemory : Bool) : Nat × Nat × Nat :=
  if useLowMemory then
    (LOW_MEMORY_ARGON2_MEMORY, LOW_MEMORY_ARGON2_ITERATIONS, DEFAULT_ARGON2_PARALLELISM)
  else
    (DEFAULT_ARGON2_MEMORY, DEFAULT_ARGON2_ITERATIONS, DEFAULT_ARGON2_PARALLELISM)

/-! ### Validators (`src/utils.rs`)

The validators are written over `String.data`.  Rust checks byte lengths
of UTF-8 slices while these check character counts; the two agree on all
accepted inputs (which are necessarily ASCII) and both reject everything
else with the same error kind, so acceptance behaviour coincides. -/

/-- ASCII hex-digit test (`char::is_ascii_hexdigit`). -/
def isAsciiHexDigit (c : Char) : Bool :=
  (48 ≤ c.toNat && c.toNat ≤ 57) || (97 ≤ c.toNat && c.toNat ≤ 102)
    || (65 ≤ c.toNat && c.toNat ≤ 70)

/-- Strip one leading `0x`, as `strip_prefix("0x").unwrap_or(...)` does. -/
def strip0x : List Char → List Char
  | '0' :: 'x' :: rest => rest
  | l => l

/-- Model of `utils::validate_ethereum_address`: optional `0x` prefix, then
exactly 40 hex characters of either case. -/
def validate_ethereum_address (address : String) : WalletResult Unit :=
  let addr := strip0x address.data
  if addr.length ≠ 40 then .error .invalidAddressFormat
  else if addr.all isAsciiHexDigit then .ok ()
  else .error .invalidAddressFormat

/-- Decimal value of a digit list (used to model `str::parse::<u32>`). -/
def decVal (l : List Char) : Nat := l.foldl (fun acc c => acc * 10 + (c.toNat - 48)) 0

/-- Digits-only nonempty string whose value fits in a `u32`. -/
def parsesAsU32Core (l : List Char) : Bool :=
  !l.isEmpty && l.all Char.isDigit && decide (decVal l < 4294967296)

/-- Model of `str::parse::<u32>().is_ok()`: an optional leading `+` sign,
then decimal digits, value below `2 ^ 32`. -/
def parsesAsU32 (l : List Char) : Bool :=
  match l with
  | c :: rest => if c = Char.ofNat 43 then parsesAsU32Core rest else parsesAsU32Core l
  | [] => false

/-- Strip one trailing hardened-derivation apostrophe from a component. -/
def stripHardened (l : List Char) : List Char :=
  if l.getLast? = some (Char.ofNat 39) then l.dropLast else l

/-- Model of `utils::validate_derivation_path`: path begins with `m/`, and
every `/`-separated component is nonempty and, after stripping one
trailing hardened marker, parses as a `u32`. -/
def validate_derivation_path (path : String) : WalletResult Unit :=
  match path.data with
  | 'm' :: '/' :: rest =>
    if (rest.splitOn '/').all (fun comp => !comp.isEmpty && parsesAsU32 (stripHardened comp))
    then .ok ()
    else .error .invalidAddressFormat
  | _ => .error .invalidAddressFormat

/-! ### Wallet model (`src/models/wallet.rs`)

The BIP39/BIP44 derivation pipeline lives in the external `bip39` and
`ethers` crates.  It is abstracted as `HdPrimitives`.

Modelled from the spec: the address computed by the ethers
`MnemonicBuilder` default build used in `Wallet::from_mnemonic` is the
address derived at the fixed base path `m/44'/60'/0'/0` extended with
child index 0 (spec section 4.2: "walks the fixed base path
(`m/44'/60'/0'/0`) ... computes the public key and Ethereum address ...
for child index 0, stores it as the primary address"). -/

/-- External HD-derivation and mnemonic primitives (`bip39`, `ethers`). -/
structure HdPrimitives where
  /-- Whether `bip39::Mnemonic::from_str` (and the builder) accepts a phrase. -/
  validMnemonic : String → Bool
  /-- Seed bytes of a phrase with empty passphrase (`to_seed("")`). -/
  toSeed : String → Bytes
  /-- Whether ethers accepts a textual derivation path. -/
  pathValid : String → Bool
  /-- Address derived from a phrase at a derivation path; `none` when the
  builder fails on the phrase. -/
  addrAt : String → String → Option String
  /-- Address of a raw private key given as stripped hex, `none` when
  `parse::<LocalWallet>` rejects it (non-hex or invalid scalar). -/
  privKeyAddr : String → Option String
  /-- Phrase produced by `bip39::Mnemonic::from_entropy`. -/
  mnemonicFromEntropy : Bytes → Option String

/-- In-memory wallet (`Wallet` in `src/models/wallet.rs`).  The field
`aliasName` models the source field `alias`; `createdAt` models the
creation timestamp.  `masterPrivateKey` carries `#[serde(skip)]` in the
source, which the serializer contracts reflect via `eraseKey`. -/
structure Wallet where
  mnemonic : String
  masterPrivateKey : Option Bytes
  address : String
  derivationPath : String
  network : String
  createdAt : Nat
  aliasName : Option String
deriving DecidableEq

/-- Derived address value (`DerivedAddress`). -/
structure DerivedAddress where
  address : String
  index : Nat
  derivationPath : String
deriving DecidableEq

/-- Model of `Wallet::has_mnemonic`. -/
def has_mnemonic (w : Wallet) : Bool := !w.mnemonic.isEmpty

/-- Model of `Wallet::private_key_bytes`. -/
def private_key_bytes (w : Wallet) : Option Bytes := w.masterPrivateKey

/-- The wallet with its (serde-skipped) master key dropped; this is what a
serialize/deserialize round trip of the source `Wallet` produces. -/
def eraseKey (w : Wallet) : Wallet := { w with masterPrivateKey := none }

/-- Model of `Wallet::from_mnemonic`. -/
def from_mnemonic (hd : HdPrimitives) (mnemonic network : String)
    (aliasName : Option String) (now : Nat) : WalletResult Wallet :=
  if hd.validMnemonic mnemonic then
    match hd.addrAt mnemonic (DEFAULT_DERIVATION_PATH ++ "/0") with
    | some address =>
      .ok ⟨mnemonic, some (hd.toSeed mnemonic), address, DEFAULT_DERIVATION_PATH,
        network, now, aliasName⟩
    | none => .error .addressGenerationFailed
  else .error .invalidMnemonic

/-- Model of `Wallet::from_private_key`: strip an optional `0x`, require
exactly 64 characters, then parse as a secp256k1 key; stores an empty
mnemonic and an empty key placeholder. -/
def from_private_key (hd : HdPrimitives) (privateKey network : String)
    (aliasName : Option String) (now : Nat) : WalletResult Wallet :=
  let keyStr := String.mk (strip0x privateKey.data)
  if keyStr.data.length ≠ 64 then .error .invalidPrivateKey
  else
    match hd.privKeyAddr keyStr with
    | some address =>
      .ok ⟨"", some [], address, DEFAULT_DERIVATION_PATH, network, now, aliasName⟩
    | none => .error .invalidPrivateKey

/-- Model of `Wallet::generate`: checks the word count, produces a phrase
from fresh entropy (passed in explicitly), and defers to `from_mnemonic`. -/
def generate (hd : HdPrimitives) (wordCount : Nat) (entropy : Bytes)
    (network : String) (aliasName : Option String) (now : Nat) : WalletResult Wallet :=
  if is_supported_word_count wordCount then
    match hd.mnemonicFromEntropy entropy with
    | some m => from_mnemonic hd m network aliasName now
    | none => .error .invalidMnemonic
  else .error .invalidMnemonic

/-- Model of `Wallet::derive_address`: fails (with the source's `KdfFailed`
kind) when the mnemonic is empty, otherwise re-derives at
`derivation_path/index`. -/
def derive_address (hd : HdPrimitives) (w : Wallet) (index : Nat) :
    WalletResult DerivedAddress :=
  if w.mnemonic.isEmpty then .error .kdfFailed
  else
    let path := w.derivationPath ++ "/" ++ Nat.repr index
    if hd.pathValid path then
      match hd.addrAt w.mnemonic path with
      | some a => .ok ⟨a, index, path⟩
      | none => .error .addressGenerationFailed
    else .error .invalidDerivationPath

/-- Model of `Wallet::validate`: address format, network support (failure
uses the source's `KdfFailed` kind), derivation-path syntax. -/
def wallet_validate (w : Wallet) : WalletResult Unit :=
  match validate_ethereum_address w.address with
  | .error e => .error e
  | .ok _ =>
    if is_supported_network w.network then validate_derivation_path w.derivationPath
    else .error .kdfFailed

/-! ### Keystore model (`src/models/keystore.rs`) -/

/-- Non-sensitive keystore metadata; `aliasName` models `alias`. -/
structure KeystoreMetadata where
  aliasName : Option String
  address : String
  createdAt : String
  network : String
  keystoreType : String
deriving DecidableEq

/-- KDF parameter variants. -/
inductive KdfParams where
  | argon2 (dklen memory time parallelism : Nat) (salt : String)
  | pbkdf2 (dklen c : Nat) (prf : String) (salt : String)
deriving DecidableEq

/-- AES-GCM cipher parameters. -/
structure CipherParams where
  iv : String
deriving DecidableEq

/-- Cryptographic parameters of a keystore. -/
structure CryptoParams where
  cipher : String
  ciphertext : String
  cipherparams : CipherParams
  kdf : String
  kdfparams : KdfParams
  mac : String
deriving DecidableEq

/-- Persisted keystore record. -/
structure Keystore where
  version : String
  metadata : KeystoreMetadata
  crypto : CryptoParams
deriving DecidableEq

/-- Model of `Keystore::new` (the salt argument is unused there too; the
creation time is passed in explicitly instead of read from the clock). -/
def Keystore_new (aliasName : Option String) (address network : String)
    (encryptedData _salt nonce mac : Bytes) (kdfParams : KdfParams)
    (now : String) : Keystore :=
  { version := "1.0.0"
    metadata :=
      { aliasName := aliasName
        address := address
        createdAt := now
        network := network
        keystoreType := "web3wallet-cli" }
    crypto :=
      { cipher := "aes-256-gcm"
        ciphertext := hexEncode encryptedData
        cipherparams := { iv := hexEncode nonce }
        kdf := match kdfParams with
          | .argon2 _ _ _ _ _ => "argon2id"
          | .pbkdf2 _ _ _ _ => "pbkdf2"
        kdfparams := kdfParams
        mac := hexEncode mac } }

/-- Model of `Keystore::encrypted_data`. -/
def keystore_encrypted_data (ks : Keystore) : WalletResult Bytes :=
  match hexDecode ks.crypto.ciphertext with
  | some bs => .ok bs
  | none => .error .dataCorruption

/-- Model of `Keystore::salt`. -/
def keystore_salt (ks : Keystore) : WalletResult Bytes :=
  let saltHex := match ks.crypto.kdfparams with
    | .argon2 _ _ _ _ salt => salt
    | .pbkdf2 _ _ _ salt => salt
  match hexDecode saltHex with
  | some bs => .ok bs
  | none => .error .dataCorruption

/-- Model of `Keystore::nonce`. -/
def keystore_nonce (ks : Keystore) : WalletResult Bytes :=
  match hexDecode ks.crypto.cipherparams.iv with
  | some bs => .ok bs
  | none => .error .dataCorruption

/-- Model of `Keystore::mac`. -/
def keystore_mac (ks : Keystore) : WalletResult Bytes :=
  match hexDecode ks.crypto.mac with
  | some bs => .ok bs
  | none => .error .dataCorruption

/-- Model of `Keystore::validate`, with the source's check order: version,
address format, network, cipher literal, KDF literal, the four hex fields,
then the variant-specific KDF parameters. -/
def keystore_validate (ks : Keystore) : WalletResult Unit :=
  if ks.version.isEmpty then .error .invalidKeystoreSchema
  else
    match validate_ethereum_address ks.metadata.address with
    | .error e => .error e
    | .ok _ =>
      if ¬ is_supported_network ks.metadata.network then .error .invalidKeystoreSchema
      else if ks.crypto.cipher ≠ "aes-256-gcm" then .error .invalidKeystoreSchema
      else if ks.crypto.kdf ≠ "argon2id" ∧ ks.crypto.kdf ≠ "pbkdf2" then
        .error .invalidKeystoreSchema
      else
        match keystore_encrypted_data ks with
        | .error e => .error e
        | .ok _ =>
          match keystore_salt ks with
          | .error e => .error e
          | .ok _ =>
            match keystore_nonce ks with
            | .error e => .error e
            | .ok _ =>
              match keystore_mac ks with
              | .error e => .error e
              | .ok _ =>
                match ks.crypto.kdfparams with
                | .argon2 dklen memory time parallelism _ =>
                  if dklen ≠ KEY_LENGTH then .error .invalidKeystoreSchema
                  else if memory = 0 ∨ time = 0 ∨ parallelism = 0 then
                    .error .invalidKeystoreSchema
                  else .ok ()
                | .pbkdf2 dklen c prf _ =>
                  if dklen ≠ KEY_LENGTH then .error .invalidKeystoreSchema
                  else if c = 0 then .error .invalidKeystoreSchema
                  else if prf ≠ "hmac-sha256" then .error .invalidKeystoreSchema
                  else .ok ()

/-! ### Crypto service (`src/services/crypto.rs`)

The KDFs, the AEAD cipher, the HMAC and serde are external crates,
abstracted as `Primitives`.  Randomness (salt, nonce) and the clock are
passed in explicitly. -/

/-- External cryptographic and serialization primitives. -/
structure Primitives where
  /-- Argon2id: password, salt, memory, time, parallelism to a 32-byte key. -/
  argon2 : String → Bytes → Nat → Nat → Nat → Bytes
  /-- PBKDF2-HMAC-SHA256: password, salt, iteration count to a 32-byte key. -/
  pbkdf2 : String → Bytes → Nat → Bytes
  /-- AES-256-GCM encryption: key, nonce, plaintext to ciphertext. -/
  aeadEncrypt : Bytes → Bytes → Bytes → Bytes
  /-- AES-256-GCM decryption: key, nonce, ciphertext to plaintext or failure. -/
  aeadDecrypt : Bytes → Bytes → Bytes → Option Bytes
  /-- HMAC-SHA256 of a message under a key. -/
  hmacSha256 : Bytes → Bytes → Bytes
  /-- serde_json serialization of a wallet (`master_private_key` is skipped). -/
  serializeWallet : Wallet → Bytes
  /-- serde_json deserialization of a wallet. -/
  deserializeWallet : Bytes → Option Wallet

/-- Model of `CryptoService::compute_mac`: HMAC over ciphertext then nonce. -/
def compute_mac (prim : Primitives) (key ciphertext nonce : Bytes) : Bytes :=
  prim.hmacSha256 key (ciphertext ++ nonce)

/-- PBKDF2 iteration count hard-coded in `encrypt_wallet`. -/
def PBKDF2_ITERATIONS : Nat := 100000

/-- Model of `CryptoService::encrypt_wallet`.  The random salt and nonce and
the metadata timestamp are explicit arguments. -/
def encrypt_wallet (prim : Primitives) (wallet : Wallet) (password : String)
    (useArgon2 : Bool) (salt nonceBytes : Bytes) (now : String) : WalletResult Keystore :=
  let walletData := prim.serializeWallet wallet
  let kd : Bytes × KdfParams :=
    if useArgon2 then
      let cfg := get_argon2_config false
      (prim.argon2 password salt cfg.1 cfg.2.1 cfg.2.2,
        KdfParams.argon2 KEY_LENGTH cfg.1 cfg.2.1 cfg.2.2 (hexEncode salt))
    else
      (prim.pbkdf2 password salt PBKDF2_ITERATIONS,
        KdfParams.pbkdf2 KEY_LENGTH PBKDF2_ITERATIONS "hmac-sha256" (hexEncode salt))
  let ciphertext := prim.aeadEncrypt kd.1 nonceBytes walletData
  let mac := compute_mac prim kd.1 ciphertext nonceBytes
  .ok (Keystore_new wallet.aliasName wallet.address wallet.network ciphertext salt
    nonceBytes mac kd.2 now)

/-- Key derivation as `decrypt_wallet` performs it, dispatching on the
keystore's stored KDF parameter variant. -/
def kdf_key (prim : Primitives) (password : String) (salt : Bytes)
    (params : KdfParams) : Bytes :=
  match params with
  | .argon2 _ memory time parallelism _ => prim.argon2 password salt memory time parallelism
  | .pbkdf2 _ c _ _ => prim.pbkdf2 password salt c

/-- Model of `CryptoService::decrypt_wallet`: validate the keystore, decode
the hex fields, re-derive the key, check the independent MAC, AEAD-decrypt,
deserialize, and re-validate the restored wallet. -/
def decrypt_wallet (prim : Primitives) (ks : Keystore) (password : String) :
    WalletResult Wallet :=
  match keystore_validate ks with
  | .error e => .error e
  | .ok _ =>
    match keystore_encrypted_data ks with
    | .error e => .error e
    | .ok ciphertext =>
      match keystore_salt ks with
      | .error e => .error e
      | .ok salt =>
        match keystore_nonce ks with
        | .error e => .error e
        | .ok nonce =>
          match keystore_mac ks with
          | .error e => .error e
          | .ok storedMac =>
            let key := kdf_key prim password salt ks.crypto.kdfparams
            let computedMac := compute_mac prim key ciphertext nonce
            if computedMac ≠ storedMac then .error .decryptionFailed
            else
              match prim.aeadDecrypt key nonce ciphertext with
              | none => .error .decryptionFailed
              | some plaintext =>
                match prim.deserializeWallet plaintext with
                | none => .error .dataCorruption
                | some wallet =>
                  match wallet_validate wallet with
                  | .error e => .error e
                  | .ok _ => .ok wallet

/-- Model of `Keystore::from_json`: parsing (external serde, abstracted as
`parseKeystore`) then full validation; a parse failure is reported as the
schema-error kind.  The function takes no cryptographic primitives at all,
so no KDF, MAC or AEAD operation can be involved. -/
def from_json (parseKeystore : String → Option Keystore) (json : String) :
    WalletResult Keystore :=
  match parseKeystore json with
  | none => .error .invalidKeystoreSchema
  | some ks =>
    match keystore_validate ks with
    | .error e => .error e
    | .ok _ => .ok ks

/-! ### The keystore produced by `encrypt_wallet`, in components -/

/-- The symmetric key `encrypt_wallet` derives. -/
def encKey (prim : Primitives) (password : String) (salt : Bytes) (useArgon2 : Bool) : Bytes :=
  if useArgon2 then
    prim.argon2 password salt DEFAULT_ARGON2_MEMORY DEFAULT_ARGON2_ITERATIONS
      DEFAULT_ARGON2_PARALLELISM
  else prim.pbkdf2 password salt PBKDF2_ITERATIONS

/-- The KDF parameter block `encrypt_wallet` stores. -/
def encParams (salt : Bytes) (useArgon2 : Bool) : KdfParams :=
  if useArgon2 then
    .argon2 KEY_LENGTH DEFAULT_ARGON2_MEMORY DEFAULT_ARGON2_ITERATIONS
      DEFAULT_ARGON2_PARALLELISM (hexEncode salt)
  else .pbkdf2 KEY_LENGTH PBKDF2_ITERATIONS "hmac-sha256" (hexEncode salt)

/-- The ciphertext `encrypt_wallet` produces. -/
def encCiphertext (prim : Primitives) (wallet : Wallet) (password : String)
    (useArgon2 : Bool) (salt nonce : Bytes) : Bytes :=
  prim.aeadEncrypt (encKey prim password salt useArgon2) nonce (prim.serializeWallet wallet)

/-- The independent MAC `encrypt_wallet` stores. -/
def encMac (prim : Primitives) (wallet : Wallet) (password : String)
    (useArgon2 : Bool) (salt nonce : Bytes) : Bytes :=
  compute_mac prim (encKey prim password salt useArgon2)
    (encCiphertext prim wallet password useArgon2 salt nonce) nonce

/-- The keystore `encrypt_wallet` returns. -/
def encOut (prim : Primitives) (wallet : Wallet) (password : String)
    (useArgon2 : Bool) (salt nonce : Bytes) (now : String) : Keystore :=
  Keystore_new wallet.aliasName wallet.address wallet.network
    (encCiphertext prim wallet password useArgon2 salt nonce) salt nonce
    (encMac prim wallet password useArgon2 salt nonce) (encParams salt useArgon2) now

/-! ### Test-vector constants

`EXPECTED_ADDRESS` is the constant asserted by the repository's own test
`test_wallet_from_mnemonic` in `src/models/wallet.rs`; it is the standard
index-0 address of the well-known test phrase.  `SPEC_CLAIMED_ADDRESS` is
the address string the specification's known-vector sentence states; note
it has 41 hex digits. -/

/-- The twelve-word test phrase used by the repository tests. -/
def TEST_MNEMONIC : String :=
  "abandon abandon abandon abandon abandon abandon abandon abandon abandon abandon abandon about"

/-- Index-0 address of `TEST_MNEMONIC` per the repository test constant. -/
def EXPECTED_ADDRESS : String := "0x9858effd232b4033e47d90003d41ec34ecaeda94"

/-- Address string stated by the specification's known-vector sentence. -/
def SPEC_CLAIMED_ADDRESS : String := "0x9858efffd232b4033e47d90003d41ec34ecaeda94"

/-- Index-1 address of `TEST_MNEMONIC` (standard BIP44 vector). -/
def INDEX1_ADDRESS : String := "0x6fac4d18c912343bf86fa7049364dd4e424ab9c0"

/-- The base path extended with child index 0. -/
def PATH_INDEX0 : String := "m/44\x27/60\x27/0\x27/0/0"

/-- The base path extended with child index 1. -/
def PATH_INDEX1 : String := "m/44\x27/60\x27/0\x27/0/1"

/-- A valid 64-hex-character secp256k1 private key (below the curve order). -/
def SAMPLE_PRIVKEY : String :=
  "aaaaaaaaaaaaaaaaaaaaaaaaaaaaaaaaaaaaaaaaaaaaaaaaaaaaaaaaaaaaaaaa"

/-- Address assigned to `SAMPLE_PRIVKEY` by the toy derivation table. -/
def PRIVKEY_ADDRESS : String := "0x1111111111111111111111111111111111111111"

/-- ASCII lowercase of a string (the source compares addresses after
`to_lowercase`, which is ASCII on hex strings). -/
def asciiLower (s : String) : String :=
  String.mk (s.data.map fun c =>
    if 65 ≤ c.toNat ∧ c.toNat ≤ 90 then Char.ofNat (c.toNat + 32) else c)

/-! ### Executable instances of the primitive structures

These make every hypothesis of the claim theorems satisfiable on closed
inputs.  `toyHd` tabulates the repository's own test vector; `toyPrim`
uses the self-delimiting chunk codec as a serializer, the identity as the
AEAD, and an injective-in-the-key tagging function as the HMAC. -/

/-- Executable HD primitives: the derivation table holds exactly the
repository's test vector and its index-1 companion. -/
def toyHd : HdPrimitives :=
  { validMnemonic := fun m => m == TEST_MNEMONIC
    toSeed := fun _ => []
    pathValid := fun p => p == PATH_INDEX0 || p == PATH_INDEX1
    addrAt := fun m p =>
      if m == TEST_MNEMONIC && p == PATH_INDEX0 then some EXPECTED_ADDRESS
      else if m == TEST_MNEMONIC && p == PATH_INDEX1 then some INDEX1_ADDRESS
      else none
    privKeyAddr := fun k => if k == SAMPLE_PRIVKEY then some PRIVKEY_ADDRESS else none
    mnemonicFromEntropy := fun _ => none }

/-- Executable wallet serializer: the serialized fields, as a chunked byte
sequence.  The master key field is not serialized (`#[serde(skip)]`). -/
def toySerializeWallet (w : Wallet) : Bytes :=
  [strNat w.mnemonic, strNat w.address, strNat w.network, optNat w.aliasName,
    strNat w.derivationPath, w.createdAt].flatMap chunk

/-- Executable wallet deserializer, left inverse of `toySerializeWallet`
up to the skipped master key. -/
def toyDeserializeWallet (bs : Bytes) : Option Wallet :=
  match decodeNats bs with
  | some [m, a, n, al, dp, ca] =>
    some ⟨strOfNat m, none, strOfNat a, strOfNat dp, strOfNat n, ca, optOfNat al⟩
  | _ => none

/-- Executable injective KDF output: the base-255 digits of the encoded
password, so all output entries are bytes. -/
def toyKdfBytes (pw : String) : Bytes := natDigits 255 (strNat pw)

/-- Executable cryptographic primitives for witnesses. -/
def toyPrim : Primitives :=
  { argon2 := fun pw _ _ _ _ => toyKdfBytes pw
    pbkdf2 := fun pw _ _ => toyKdfBytes pw
    aeadEncrypt := fun _ _ m => m
    aeadDecrypt := fun _ _ c => some c
    hmacSha256 := fun k m => k.map (· % 256) ++ m.map (· % 256)
    serializeWallet := toySerializeWallet
    deserializeWallet := toyDeserializeWallet }

deriving instance DecidableEq for Except

/-! ### Closed inputs used by witnesses and counterexamples -/

/-- A syntactically valid lowercase address used by closed inputs. -/
def ADDR_A : String := "0xaaaaaaaaaaaaaaaaaaaaaaaaaaaaaaaaaaaaaaaa"

/-- A second, different valid address used by closed inputs. -/
def ADDR_B : String := "0xbbbbbbbbbbbbbbbbbbbbbbbbbbbbbbbbbbbbbbbb"

/-- A small wallet that passes `Wallet::validate`. -/
def wSmall : Wallet :=
  ⟨"m", none, ADDR_A, DEFAULT_DERIVATION_PATH, "mainnet", 0, none⟩

/-- The keystore obtained by encrypting `wSmall` with the toy primitives. -/
def ksSmall : Keystore := encOut toyPrim wSmall "pw" true [1] [2] "t"

/-- `ksSmall` with its `metadata.address` overwritten by a different
valid address (the MAC covers only ciphertext and nonce, so it is intact). -/
def ksSmallTamperedAddress : Keystore :=
  { ksSmall with metadata := { ksSmall.metadata with address := ADDR_B } }

/-- `ksSmall` with its stored MAC overwritten by the hex of `[0]`. -/
def ksSmallTamperedMac : Keystore :=
  { ksSmall with crypto := { ksSmall.crypto with mac := "00" } }

/-- The wallet produced by `from_mnemonic` on the test vector (with seed
field as `toyHd` supplies it). -/
def vectorWallet : Wallet :=
  ⟨TEST_MNEMONIC, some [], EXPECTED_ADDRESS, DEFAULT_DERIVATION_PATH, "mainnet", 0, none⟩

/-- Whether a KDF parameter block has a zero-valued field (`memory`, `time`
or `parallelism` for Argon2; `c` for PBKDF2). -/
def hasZeroKdfField : KdfParams → Bool
  | .argon2 _ memory time parallelism _ => memory = 0 || time = 0 || parallelism = 0
  | .pbkdf2 _ c _ _ => c = 0

/-- A parsed keystore whose cipher is not the supported literal but whose
earlier-checked fields are fine. -/
def ksBadCipher : Keystore :=
  { version := "1.0.0"
    metadata :=
      { aliasName := none, address := ADDR_A, createdAt := "t", network := "mainnet",
        keystoreType := "web3wallet-cli" }
    crypto :=
      { cipher := "rot13", ciphertext := "00", cipherparams := { iv := "00" },
        kdf := "argon2id", kdfparams := .argon2 32 47104 1 1 "00", mac := "00" } }

/-- A parsed keystore with a zero-valued Argon2 memory field and all
earlier checks passing. -/
def ksZeroKdf : Keystore :=
  { version := "1.0.0"
    metadata :=
      { aliasName := none, address := ADDR_A, createdAt := "t", network := "mainnet",
        keystoreType := "web3wallet-cli" }
    crypto :=
      { cipher := "aes-256-gcm", ciphertext := "00", cipherparams := { iv := "00" },
        kdf := "argon2id", kdfparams := .argon2 32 0 1 1 "00", mac := "00" } }

/-- A parsed keystore with an invalid metadata address and an unsupported
cipher at the same time. -/
def ksBadBoth : Keystore :=
  { version := "1.0.0"
    metadata :=
      { aliasName := none, address := "zz", createdAt := "t", network := "mainnet",
        keystoreType := "web3wallet-cli" }
    crypto :=
      { cipher := "rot13", ciphertext := "00", cipherparams := { iv := "00" },
        kdf := "argon2id", kdfparams := .argon2 32 47104 1 1 "00", mac := "00" } }

/-- A parser table standing in for serde_json in closed runs of `from_json`. -/
def toyParse : String → Option Keystore := fun s =>
  if s == "bad-cipher" then some ksBadCipher
  else if s == "zero-kdf" then some ksZeroKdf
  else if s == "bad-both" then some ksBadBoth
  else none

/-- A wallet value importable from `SAMPLE_PRIVKEY` by the tabulated HD
instance, used as the concrete input of the key-material witness. -/
def pkWallet : Wallet :=
  ⟨"", some [], PRIVKEY_ADDRESS, DEFAULT_DERIVATION_PATH, "mainnet", 0, none⟩

/-! ### Theorems -/

theorem hexDigitVal_hexChar {d : Nat} (hd : d < 16) : hexDigitVal (hexChar d) = some d := by
  interval_cases d <;> rfl

theorem hexDecodeList_encode (bs : Bytes) (h : ∀ b ∈ bs, b < 256) :
    hexDecodeList (bs.flatMap hexEncodeByte) = some bs := by
  induction bs with
  | nil => rfl
  | cons b bs ih =>
    have hb : b < 256 := h b (List.mem_cons_self b bs)
    have h1 : b / 16 < 16 := by omega
    have h2 : b % 16 < 16 := by omega
    rw [List.flatMap_cons]
    show hexDecodeList (hexChar (b / 16) :: hexChar (b % 16) :: bs.flatMap hexEncodeByte) = _
    rw [hexDecodeList, hexDigitVal_hexChar h1, hexDigitVal_hexChar h2,
      ih (fun x hx => h x (List.mem_cons_of_mem _ hx))]
    show some ((16 * (b / 16) + b % 16) :: bs) = some (b :: bs)
    have : 16 * (b / 16) + b % 16 = b := by omega
    rw [this]

theorem hexDecode_hexEncode (bs : Bytes) (h : ∀ b ∈ bs, b < 256) :
    hexDecode (hexEncode bs) = some bs := by
  show hexDecodeList (String.mk (bs.flatMap hexEncodeByte)).data = some bs
  exact hexDecodeList_encode bs h

theorem digitsGo_zero (b f : Nat) : digitsGo b f 0 = [] := by cases f <;> rfl

theorem digitsGo_fuel (b : Nat) (hb : 2 ≤ b) :
    ∀ f1 f2 n, n ≤ f1 → n ≤ f2 → digitsGo b f1 n = digitsGo b f2 n := by
  intro f1
  induction f1 with
  | zero =>
    intro f2 n h1 _
    have : n = 0 := Nat.le_zero.mp h1
    subst this
    rw [digitsGo_zero, digitsGo_zero]
  | succ f ih =>
    intro f2 n h1 h2
    cases n with
    | zero => rw [digitsGo_zero, digitsGo_zero]
    | succ m =>
      cases f2 with
      | zero => exact absurd h2 (by omega)
      | succ g =>
        show ((m + 1) % b) :: digitsGo b f ((m + 1) / b)
            = ((m + 1) % b) :: digitsGo b g ((m + 1) / b)
        have hlt : (m + 1) / b < m + 1 := Nat.div_lt_self (Nat.succ_pos m) (by omega)
        rw [ih g ((m + 1) / b) (by omega) (by omega)]

theorem natDigits_zero (b : Nat) : natDigits b 0 = [] := rfl

theorem natDigits_succ (b : Nat) (hb : 2 ≤ b) {n : Nat} (hn : 0 < n) :
    natDigits b n = (n % b) :: natDigits b (n / b) := by
  obtain ⟨m, rfl⟩ : ∃ m, n = m + 1 := ⟨n - 1, by omega⟩
  show ((m + 1) % b) :: digitsGo b m ((m + 1) / b) = _
  have hlt : (m + 1) / b < m + 1 := Nat.div_lt_self (Nat.succ_pos m) (by omega)
  rw [digitsGo_fuel b hb m ((m + 1) / b) ((m + 1) / b) (by omega) (by omega)]
  rfl

theorem digitsVal_natDigits (b : Nat) (hb : 2 ≤ b) (n : Nat) :
    digitsVal b (natDigits b n) = n := by
  induction n using Nat.strong_induction_on with
  | _ n ih =>
    rcases Nat.eq_zero_or_pos n with rfl | hn
    · rfl
    · rw [natDigits_succ b hb hn, digitsVal,
        ih (n / b) (Nat.div_lt_self hn (by omega))]
      exact Nat.mod_add_div n b

theorem natDigits_lt (b : Nat) (hb : 2 ≤ b) (n : Nat) :
    ∀ d ∈ natDigits b n, d < b := by
  induction n using Nat.strong_induction_on with
  | _ n ih =>
    rcases Nat.eq_zero_or_pos n with rfl | hn
    · intro d hd; exact absurd hd (by simp [natDigits_zero])
    · rw [natDigits_succ b hb hn]
      intro d hd
      rcases List.mem_cons.mp hd with rfl | hd
      · exact Nat.mod_lt n (by omega)
      · exact ih (n / b) (Nat.div_lt_self hn (by omega)) d hd

theorem natDigits_digitsVal (b : Nat) (hb : 2 ≤ b) :
    ∀ l : List Nat, (∀ d ∈ l, 0 < d ∧ d < b) → natDigits b (digitsVal b l) = l := by
  intro l
  induction l with
  | nil => intro _; rfl
  | cons d l ih =>
    intro h
    have hd := h d (List.mem_cons_self d l)
    have hpos : 0 < d + b * digitsVal b l := by omega
    show natDigits b (d + b * digitsVal b l) = d :: l
    rw [natDigits_succ b hb hpos]
    have hmod : (d + b * digitsVal b l) % b = d := by
      rw [Nat.add_mul_mod_self_left, Nat.mod_eq_of_lt hd.2]
    have hdiv : (d + b * digitsVal b l) / b = digitsVal b l := by
      rw [Nat.add_mul_div_left _ _ (by omega : 0 < b), Nat.div_eq_of_lt hd.2, Nat.zero_add]
    rw [hmod, hdiv, ih (fun x hx => h x (List.mem_cons_of_mem _ hx))]

theorem splitAtTerm_append (p rest : Bytes) (hp : ∀ d ∈ p, d ≠ 255) :
    splitAtTerm (p ++ 255 :: rest) = some (p, rest) := by
  induction p with
  | nil => simp [splitAtTerm]
  | cons d p ih =>
    have hd : d ≠ 255 := hp d (List.mem_cons_self d p)
    show splitAtTerm (d :: (p ++ 255 :: rest)) = some (d :: p, rest)
    rw [splitAtTerm, if_neg hd, ih (fun x hx => hp x (List.mem_cons_of_mem _ hx))]

theorem decodeNatsGo_cons (f : Nat) (l : Bytes) (hl : l ≠ []) :
    decodeNatsGo (f + 1) l =
      match splitAtTerm l with
      | none => none
      | some (p, s) =>
        match decodeNatsGo f s with
        | none => none
        | some r => some (digitsVal 255 p :: r) := by
  cases l with
  | nil => exact absurd rfl hl
  | cons d rest => rfl

theorem decodeNatsGo_chunks (l : List Nat) :
    ∀ f : Nat, (l.flatMap chunk).length ≤ f → decodeNatsGo f (l.flatMap chunk) = some l := by
  induction l with
  | nil => intro f _; cases f <;> rfl
  | cons n l ih =>
    intro f hf
    have hshape : (n :: l).flatMap chunk = natDigits 255 n ++ 255 :: l.flatMap chunk := by
      rw [List.flatMap_cons]
      show (natDigits 255 n ++ [255]) ++ l.flatMap chunk = _
      rw [List.append_assoc, List.singleton_append]
    have hne : (n :: l).flatMap chunk ≠ [] := by
      rw [hshape]
      intro hcontra
      rcases List.append_eq_nil.mp hcontra with ⟨_, h2⟩
      exact List.cons_ne_nil _ _ h2
    have hlenpos : 0 < ((n :: l).flatMap chunk).length := List.length_pos.mpr hne
    obtain ⟨g, rfl⟩ : ∃ g, f = g + 1 := ⟨f - 1, by omega⟩
    rw [decodeNatsGo_cons g _ hne, hshape,
      splitAtTerm_append _ _ (fun d hd => Nat.ne_of_lt (natDigits_lt 255 (by omega) n d hd))]
    have hlen : (l.flatMap chunk).length ≤ g := by
      have : ((n :: l).flatMap chunk).length
          = (natDigits 255 n).length + (1 + (l.flatMap chunk).length) := by
        rw [hshape, List.length_append, List.length_cons]
        omega
      omega
    show (match decodeNatsGo g (l.flatMap chunk) with
      | none => none
      | some r => some (digitsVal 255 (natDigits 255 n) :: r)) = some (n :: l)
    rw [ih g hlen, digitsVal_natDigits 255 (by omega) n]

theorem decodeNats_chunks (l : List Nat) : decodeNats (l.flatMap chunk) = some l :=
  decodeNatsGo_chunks l _ (Nat.le_refl _)

theorem chunk_lt (n : Nat) : ∀ d ∈ chunk n, d < 256 := by
  intro d hd
  rcases List.mem_append.mp hd with h | h
  · exact Nat.lt_trans (natDigits_lt 255 (by omega) n d h) (by omega)
  · rcases List.mem_singleton.mp h with rfl
    omega

theorem char_toNat_lt (c : Char) : c.toNat < 1114112 := by
  show c.val.toNat < 1114112
  rcases c.valid with h | h <;> omega

theorem strOfNat_strNat (s : String) : strOfNat (strNat s) = s := by
  show String.mk ((natDigits charBase (digitsVal charBase
      (s.data.map fun c => c.toNat + 1))).map fun d => Char.ofNat (d - 1)) = s
  rw [natDigits_digitsVal charBase (by norm_num [charBase]) _ ?bounds]
  case bounds =>
    intro d hd
    rcases List.mem_map.mp hd with ⟨c, _, rfl⟩
    have := char_toNat_lt c
    refine ⟨by omega, ?_⟩
    show c.toNat + 1 < 1114113
    omega
  rw [List.map_map]
  have heq : ((fun d => Char.ofNat (d - 1)) ∘ fun c : Char => c.toNat + 1) = id := by
    funext c
    show Char.ofNat (c.toNat + 1 - 1) = c
    rw [Nat.add_sub_cancel, Char.ofNat_toNat]
  rw [heq, List.map_id]

theorem strNat_inj {s1 s2 : String} (h : strNat s1 = strNat s2) : s1 = s2 := by
  rw [← strOfNat_strNat s1, ← strOfNat_strNat s2, h]

theorem optOfNat_optNat (o : Option String) : optOfNat (optNat o) = o := by
  cases o with
  | none => rfl
  | some s => show some (strOfNat (strNat s)) = some s; rw [strOfNat_strNat]

theorem encrypt_wallet_eq (prim : Primitives) (wallet : Wallet) (password : String)
    (useArgon2 : Bool) (salt nonce : Bytes) (now : String) :
    encrypt_wallet prim wallet password useArgon2 salt nonce now
      = .ok (encOut prim wallet password useArgon2 salt nonce now) := by
  cases useArgon2 <;> rfl

theorem encOut_version (prim : Primitives) (wallet : Wallet) (password : String)
    (useArgon2 : Bool) (salt nonce : Bytes) (now : String) :
    (encOut prim wallet password useArgon2 salt nonce now).version = "1.0.0" := rfl

theorem encOut_address (prim : Primitives) (wallet : Wallet) (password : String)
    (useArgon2 : Bool) (salt nonce : Bytes) (now : String) :
    (encOut prim wallet password useArgon2 salt nonce now).metadata.address
      = wallet.address := rfl

theorem encOut_network (prim : Primitives) (wallet : Wallet) (password : String)
    (useArgon2 : Bool) (salt nonce : Bytes) (now : String) :
    (encOut prim wallet password useArgon2 salt nonce now).metadata.network
      = wallet.network := rfl

theorem encOut_cipher (prim : Primitives) (wallet : Wallet) (password : String)
    (useArgon2 : Bool) (salt nonce : Bytes) (now : String) :
    (encOut prim wallet password useArgon2 salt nonce now).crypto.cipher
      = "aes-256-gcm" := rfl

theorem encOut_kdf (prim : Primitives) (wallet : Wallet) (password : String)
    (useArgon2 : Bool) (salt nonce : Bytes) (now : String) :
    (encOut prim wallet password useArgon2 salt nonce now).crypto.kdf
      = (if useArgon2 then "argon2id" else "pbkdf2") := by
  cases useArgon2 <;> rfl

theorem encOut_kdfparams (prim : Primitives) (wallet : Wallet) (password : String)
    (useArgon2 : Bool) (salt nonce : Bytes) (now : String) :
    (encOut prim wallet password useArgon2 salt nonce now).crypto.kdfparams
      = encParams salt useArgon2 := rfl

theorem kdf_key_encParams (prim : Primitives) (password : String) (salt : Bytes)
    (useArgon2 : Bool) :
    kdf_key prim password salt (encParams salt useArgon2)
      = encKey prim password salt useArgon2 := by
  cases useArgon2 <;> rfl

theorem wallet_validate_ok_iff (w : Wallet) :
    wallet_validate w = .ok () ↔
      validate_ethereum_address w.address = .ok ()
        ∧ is_supported_network w.network = true
        ∧ validate_derivation_path w.derivationPath = .ok () := by
  unfold wallet_validate
  cases h : validate_ethereum_address w.address with
  | error e => simp [h]
  | ok u =>
    cases u
    by_cases hn : is_supported_network w.network <;> simp [hn]

@[simp]
theorem wallet_validate_eraseKey (w : Wallet) :
    wallet_validate (eraseKey w) = wallet_validate w := rfl

theorem encrypted_data_encOut (prim : Primitives) (wallet : Wallet) (password : String)
    (useArgon2 : Bool) (salt nonce : Bytes) (now : String)
    (hCt : ∀ b ∈ encCiphertext prim wallet password useArgon2 salt nonce, b < 256) :
    keystore_encrypted_data (encOut prim wallet password useArgon2 salt nonce now)
      = .ok (encCiphertext prim wallet password useArgon2 salt nonce) := by
  unfold keystore_encrypted_data encOut Keystore_new
  simp only [hexDecode_hexEncode _ hCt]

theorem salt_encOut (prim : Primitives) (wallet : Wallet) (password : String)
    (useArgon2 : Bool) (salt nonce : Bytes) (now : String)
    (hSalt : ∀ b ∈ salt, b < 256) :
    keystore_salt (encOut prim wallet password useArgon2 salt nonce now) = .ok salt := by
  cases useArgon2 <;>
    simp [keystore_salt, encOut, Keystore_new, encParams, hexDecode_hexEncode _ hSalt]

theorem nonce_encOut (prim : Primitives) (wallet : Wallet) (password : String)
    (useArgon2 : Bool) (salt nonce : Bytes) (now : String)
    (hNonce : ∀ b ∈ nonce, b < 256) :
    keystore_nonce (encOut prim wallet password useArgon2 salt nonce now) = .ok nonce := by
  unfold keystore_nonce encOut Keystore_new
  simp only [hexDecode_hexEncode _ hNonce]

theorem mac_encOut (prim : Primitives) (wallet : Wallet) (password : String)
    (useArgon2 : Bool) (salt nonce : Bytes) (now : String)
    (hMac : ∀ b ∈ encMac prim wallet password useArgon2 salt nonce, b < 256) :
    keystore_mac (encOut prim wallet password useArgon2 salt nonce now)
      = .ok (encMac prim wallet password useArgon2 salt nonce) := by
  unfold keystore_mac encOut Keystore_new
  simp only [hexDecode_hexEncode _ hMac]

theorem keystore_validate_encOut (prim : Primitives) (wallet : Wallet) (password : String)
    (useArgon2 : Bool) (salt nonce : Bytes) (now : String)
    (hAddr : validate_ethereum_address wallet.address = .ok ())
    (hNet : is_supported_network wallet.network = true)
    (hSalt : ∀ b ∈ salt, b < 256) (hNonce : ∀ b ∈ nonce, b < 256)
    (hCt : ∀ b ∈ encCiphertext prim wallet password useArgon2 salt nonce, b < 256)
    (hMac : ∀ b ∈ encMac prim wallet password useArgon2 salt nonce, b < 256) :
    keystore_validate (encOut prim wallet password useArgon2 salt nonce now) = .ok () := by
  have hed := encrypted_data_encOut prim wallet password useArgon2 salt nonce now hCt
  have hs := salt_encOut prim wallet password useArgon2 salt nonce now hSalt
  have hn := nonce_encOut prim wallet password useArgon2 salt nonce now hNonce
  have hm := mac_encOut prim wallet password useArgon2 salt nonce now hMac
  have hver : ("1.0.0" : String).isEmpty = false := rfl
  cases useArgon2 <;>
    simp [keystore_validate, hed, hs, hn, hm, hAddr, hNet, hver, encOut_version,
      encOut_address, encOut_network, encOut_cipher, encOut_kdf, encOut_kdfparams,
      encParams, KEY_LENGTH, PBKDF2_ITERATIONS, DEFAULT_ARGON2_MEMORY,
      DEFAULT_ARGON2_ITERATIONS, DEFAULT_ARGON2_PARALLELISM]

theorem decrypt_encOut (prim : Primitives) (wallet : Wallet) (password : String)
    (useArgon2 : Bool) (salt nonce : Bytes) (now : String)
    (hAead : ∀ k n m, prim.aeadDecrypt k n (prim.aeadEncrypt k n m) = some m)
    (hSer : ∀ w, prim.deserializeWallet (prim.serializeWallet w) = some (eraseKey w))
    (hW : wallet_validate wallet = .ok ())
    (hSalt : ∀ b ∈ salt, b < 256) (hNonce : ∀ b ∈ nonce, b < 256)
    (hCt : ∀ b ∈ encCiphertext prim wallet password useArgon2 salt nonce, b < 256)
    (hMac : ∀ b ∈ encMac prim wallet password useArgon2 salt nonce, b < 256) :
    decrypt_wallet prim (encOut prim wallet password useArgon2 salt nonce now) password
      = .ok (eraseKey wallet) := by
  obtain ⟨hAddr, hNet, _⟩ := (wallet_validate_ok_iff wallet).mp hW
  have hv := keystore_validate_encOut prim wallet password useArgon2 salt nonce now
    hAddr hNet hSalt hNonce hCt hMac
  have hed := encrypted_data_encOut prim wallet password useArgon2 salt nonce now hCt
  have hs := salt_encOut prim wallet password useArgon2 salt nonce now hSalt
  have hn := nonce_encOut prim wallet password useArgon2 salt nonce now hNonce
  have hm := mac_encOut prim wallet password useArgon2 salt nonce now hMac
  have hkdf : (encOut prim wallet password useArgon2 salt nonce now).crypto.kdfparams
      = encParams salt useArgon2 := rfl
  unfold decrypt_wallet
  simp only [hv, hed, hs, hn, hm, hkdf, kdf_key_encParams]
  have hmacEq : compute_mac prim (encKey prim password salt useArgon2)
      (encCiphertext prim wallet password useArgon2 salt nonce) nonce
      = encMac prim wallet password useArgon2 salt nonce := rfl
  simp only [hmacEq, ne_eq, not_true_eq_false, if_false, ite_false]
  show (match prim.aeadDecrypt (encKey prim password salt useArgon2) nonce
      (encCiphertext prim wallet password useArgon2 salt nonce) with
    | none => Except.error WErr.decryptionFailed
    | some plaintext =>
      match prim.deserializeWallet plaintext with
      | none => Except.error WErr.dataCorruption
      | some w =>
        match wallet_validate w with
        | .error e => Except.error e
        | .ok _ => Except.ok w) = Except.ok (eraseKey wallet)
  rw [encCiphertext]
  simp only [hAead, hSer, wallet_validate_eraseKey, hW]

theorem toyHd_privKey_nonhex (k : String) (h : k.data.all isAsciiHexDigit = false) :
    toyHd.privKeyAddr k = none := by
  by_cases he : k = SAMPLE_PRIVKEY
  · rw [he] at h
    exact absurd h (by decide)
  · simp [toyHd, he]

theorem toy_deser_ser (w : Wallet) :
    toyDeserializeWallet (toySerializeWallet w) = some (eraseKey w) := by
  unfold toyDeserializeWallet toySerializeWallet
  rw [decodeNats_chunks]
  simp [strOfNat_strNat, optOfNat_optNat, eraseKey]

theorem toy_aead (k n m : Bytes) :
    toyPrim.aeadDecrypt k n (toyPrim.aeadEncrypt k n m) = some m := rfl

theorem toy_deserialize_serialize (w : Wallet) :
    toyPrim.deserializeWallet (toyPrim.serializeWallet w) = some (eraseKey w) :=
  toy_deser_ser w

theorem toy_hmac_lt (k m : Bytes) : ∀ b ∈ toyPrim.hmacSha256 k m, b < 256 := by
  intro b hb
  rcases List.mem_append.mp hb with h | h <;>
    · rcases List.mem_map.mp h with ⟨x, _, rfl⟩
      exact Nat.mod_lt x (by omega)

theorem toy_ser_lt (w : Wallet) : ∀ b ∈ toySerializeWallet w, b < 256 := by
  intro b hb
  rcases List.mem_flatMap.mp hb with ⟨n, _, hn⟩
  exact chunk_lt n b hn

theorem toy_ct_lt (w : Wallet) (pw : String) (u : Bool) (salt nonce : Bytes) :
    ∀ b ∈ encCiphertext toyPrim w pw u salt nonce, b < 256 :=
  fun b hb => toy_ser_lt w b hb

theorem toy_mac_lt (w : Wallet) (pw : String) (u : Bool) (salt nonce : Bytes) :
    ∀ b ∈ encMac toyPrim w pw u salt nonce, b < 256 :=
  fun b hb => toy_hmac_lt _ _ b hb

theorem toy_kdf_inj {p1 p2 : String} (h : toyKdfBytes p1 = toyKdfBytes p2) : p1 = p2 := by
  have h2 := congrArg (digitsVal 255) h
  rw [toyKdfBytes, toyKdfBytes, digitsVal_natDigits 255 (by omega),
    digitsVal_natDigits 255 (by omega)] at h2
  exact strNat_inj h2

theorem toy_kdf_lt (pw : String) : ∀ b ∈ toyKdfBytes pw, b < 256 := by
  intro b hb
  exact Nat.lt_trans (natDigits_lt 255 (by omega) _ b hb) (by omega)

theorem map_mod_eq_self (l : Bytes) (h : ∀ b ∈ l, b < 256) : l.map (· % 256) = l := by
  induction l with
  | nil => rfl
  | cons b l ih =>
    rw [List.map_cons, Nat.mod_eq_of_lt (h b (List.mem_cons_self b l)),
      ih (fun x hx => h x (List.mem_cons_of_mem _ hx))]

theorem toy_hmac_inj_key (m k1 k2 : Bytes) (h1 : ∀ b ∈ k1, b < 256)
    (h2 : ∀ b ∈ k2, b < 256) (h : toyPrim.hmacSha256 k1 m = toyPrim.hmacSha256 k2 m) :
    k1 = k2 := by
  have hmap : k1.map (· % 256) = k2.map (· % 256) := List.append_cancel_right h
  rwa [map_mod_eq_self k1 h1, map_mod_eq_self k2 h2] at hmap

/-! ### Claim theorems -/

/-- C1 (counterexample): the claim fails as stated, because the wallet
constructors accept arbitrary network strings while `decrypt_wallet`
validates the keystore network against the supported set.  A wallet built
by `from_mnemonic` with network `"testnet"` encrypts fine, but decrypting
the result with the same password fails with the schema-error kind instead
of succeeding.  The failure happens inside `Keystore::validate`, before
any primitive is consulted, so it is independent of the abstracted
cryptography. -/
theorem roundtrip_cex :
    (from_mnemonic toyHd TEST_MNEMONIC "testnet" none 0 >>= fun w =>
      encrypt_wallet toyPrim w "pw" true [1] [2] "t" >>= fun ks =>
      decrypt_wallet toyPrim ks "pw") = .error .invalidKeystoreSchema
    ∧ is_supported_network "testnet" = false := by
  exact ⟨by decide, by decide⟩

/-- C1 (amended): for every wallet that passes `Wallet::validate` (in
particular, whose network is supported — which is the only constraint the
constructors do not already guarantee), every password, and both KDF
choices, decrypting the keystore produced by `encrypt_wallet` with the
same password succeeds and returns a wallet with exactly the original
address, mnemonic, network and alias.  The external primitives are
quantified, constrained by their actual contracts: AEAD decryption
inverts encryption, serde round-trips the wallet (up to the serde-skipped
master key), and ciphertext, MAC, salt and nonce are byte sequences. -/
theorem encrypt_decrypt_roundtrip (prim : Primitives) (wallet : Wallet)
    (password : String) (useArgon2 : Bool) (salt nonce : Bytes) (now : String)
    (hAead : ∀ k n m, prim.aeadDecrypt k n (prim.aeadEncrypt k n m) = some m)
    (hSer : ∀ w, prim.deserializeWallet (prim.serializeWallet w) = some (eraseKey w))
    (hW : wallet_validate wallet = .ok ())
    (hSalt : ∀ b ∈ salt, b < 256) (hNonce : ∀ b ∈ nonce, b < 256)
    (hCt : ∀ b ∈ encCiphertext prim wallet password useArgon2 salt nonce, b < 256)
    (hMac : ∀ b ∈ encMac prim wallet password useArgon2 salt nonce, b < 256) :
    ∃ ks w, encrypt_wallet prim wallet password useArgon2 salt nonce now = .ok ks
      ∧ decrypt_wallet prim ks password = .ok w
      ∧ w.address = wallet.address ∧ w.mnemonic = wallet.mnemonic
      ∧ w.network = wallet.network ∧ w.aliasName = wallet.aliasName :=
  ⟨encOut prim wallet password useArgon2 salt nonce now, eraseKey wallet,
    encrypt_wallet_eq prim wallet password useArgon2 salt nonce now,
    decrypt_encOut prim wallet password useArgon2 salt nonce now hAead hSer hW
      hSalt hNonce hCt hMac, rfl, rfl, rfl, rfl⟩

/-- C1 (witness): the round-trip theorem applied to the toy primitives and
a concrete valid wallet. -/
theorem encrypt_decrypt_roundtrip_witness :
    ∃ ks w, encrypt_wallet toyPrim wSmall "pw" true [1] [2] "t" = .ok ks
      ∧ decrypt_wallet toyPrim ks "pw" = .ok w
      ∧ w.address = wSmall.address ∧ w.mnemonic = wSmall.mnemonic
      ∧ w.network = wSmall.network ∧ w.aliasName = wSmall.aliasName :=
  encrypt_decrypt_roundtrip toyPrim wSmall "pw" true [1] [2] "t" toy_aead
    toy_deserialize_serialize (by decide) (by decide) (by decide)
    (toy_ct_lt wSmall "pw" true [1] [2]) (toy_mac_lt wSmall "pw" true [1] [2])

/-- C2 (counterexample): the claim fails as stated for the same reason as
the round-trip claim: for a constructor wallet with an unsupported
network, decryption under a wrong password fails with the schema-error
kind, not with `DecryptionFailed`. -/
theorem wrong_password_cex :
    (from_mnemonic toyHd TEST_MNEMONIC "testnet" none 0 >>= fun w =>
      encrypt_wallet toyPrim w "pw" true [1] [2] "t" >>= fun ks =>
      decrypt_wallet toyPrim ks "qq") = .error .invalidKeystoreSchema
    ∧ WErr.invalidKeystoreSchema ≠ WErr.decryptionFailed
    ∧ ("qq" : String) ≠ "pw" := by
  exact ⟨by decide, by decide, by decide⟩

/-- C2 (amended): for every wallet passing `Wallet::validate` and every
pair of distinct passwords, decrypting the keystore produced under one
password with the other fails with exactly `DecryptionFailed` — under the
ideal-primitive hypotheses that the KDFs are injective in the password at
fixed salt and parameters and the HMAC is injective in its (byte-valued)
key, which formalise the cryptographic absence of collisions. -/
theorem wrong_password_rejected (prim : Primitives) (wallet : Wallet)
    (password password2 : String) (useArgon2 : Bool) (salt nonce : Bytes) (now : String)
    (hW : wallet_validate wallet = .ok ())
    (hSalt : ∀ b ∈ salt, b < 256) (hNonce : ∀ b ∈ nonce, b < 256)
    (hCt : ∀ b ∈ encCiphertext prim wallet password useArgon2 salt nonce, b < 256)
    (hMac : ∀ b ∈ encMac prim wallet password useArgon2 salt nonce, b < 256)
    (hArgInj : ∀ s m t p p1 p2, prim.argon2 p1 s m t p = prim.argon2 p2 s m t p → p1 = p2)
    (hPbkInj : ∀ s c p1 p2, prim.pbkdf2 p1 s c = prim.pbkdf2 p2 s c → p1 = p2)
    (hArgLt : ∀ p s m t par, ∀ b ∈ prim.argon2 p s m t par, b < 256)
    (hPbkLt : ∀ p s c, ∀ b ∈ prim.pbkdf2 p s c, b < 256)
    (hMacInj : ∀ m k1 k2, (∀ b ∈ k1, b < 256) → (∀ b ∈ k2, b < 256)
      → prim.hmacSha256 k1 m = prim.hmacSha256 k2 m → k1 = k2)
    (hne : password2 ≠ password) :
    ∃ ks, encrypt_wallet prim wallet password useArgon2 salt nonce now = .ok ks
      ∧ decrypt_wallet prim ks password2 = .error .decryptionFailed := by
  obtain ⟨hAddr, hNet, _⟩ := (wallet_validate_ok_iff wallet).mp hW
  refine ⟨encOut prim wallet password useArgon2 salt nonce now,
    encrypt_wallet_eq prim wallet password useArgon2 salt nonce now, ?_⟩
  have hv := keystore_validate_encOut prim wallet password useArgon2 salt nonce now
    hAddr hNet hSalt hNonce hCt hMac
  have hed := encrypted_data_encOut prim wallet password useArgon2 salt nonce now hCt
  have hs := salt_encOut prim wallet password useArgon2 salt nonce now hSalt
  have hn := nonce_encOut prim wallet password useArgon2 salt nonce now hNonce
  have hm := mac_encOut prim wallet password useArgon2 salt nonce now hMac
  have hkdf : (encOut prim wallet password useArgon2 salt nonce now).crypto.kdfparams
      = encParams salt useArgon2 := rfl
  have hkb : ∀ pw, ∀ b ∈ encKey prim pw salt useArgon2, b < 256 := by
    intro pw
    cases useArgon2
    · exact hPbkLt pw salt PBKDF2_ITERATIONS
    · exact hArgLt pw salt DEFAULT_ARGON2_MEMORY DEFAULT_ARGON2_ITERATIONS
        DEFAULT_ARGON2_PARALLELISM
  have hkeyInj : ∀ p1 p2, encKey prim p1 salt useArgon2 = encKey prim p2 salt useArgon2
      → p1 = p2 := by
    intro p1 p2 hk
    cases useArgon2
    · exact hPbkInj salt PBKDF2_ITERATIONS p1 p2 hk
    · exact hArgInj salt DEFAULT_ARGON2_MEMORY DEFAULT_ARGON2_ITERATIONS
        DEFAULT_ARGON2_PARALLELISM p1 p2 hk
  have hneq : compute_mac prim (encKey prim password2 salt useArgon2)
      (encCiphertext prim wallet password useArgon2 salt nonce) nonce
      ≠ encMac prim wallet password useArgon2 salt nonce := by
    intro heq
    have hkeys := hMacInj (encCiphertext prim wallet password useArgon2 salt nonce ++ nonce)
      (encKey prim password2 salt useArgon2) (encKey prim password salt useArgon2)
      (hkb password2) (hkb password) heq
    exact hne (hkeyInj password2 password hkeys)
  unfold decrypt_wallet
  simp only [hv, hed, hs, hn, hm, hkdf, kdf_key_encParams]
  rw [if_pos hneq]

/-- C2 (witness): the wrong-password theorem applied to the toy primitives,
a concrete valid wallet, and the distinct passwords `"pw"` and `"qq"`. -/
theorem wrong_password_rejected_witness :
    ∃ ks, encrypt_wallet toyPrim wSmall "pw" true [1] [2] "t" = .ok ks
      ∧ decrypt_wallet toyPrim ks "qq" = .error .decryptionFailed :=
  wrong_password_rejected toyPrim wSmall "pw" "qq" true [1] [2] "t" (by decide)
    (by decide) (by decide) (toy_ct_lt wSmall "pw" true [1] [2])
    (toy_mac_lt wSmall "pw" true [1] [2])
    (fun _ _ _ _ _ _ h => toy_kdf_inj h)
    (fun _ _ _ _ h => toy_kdf_inj h)
    (fun p _ _ _ _ => toy_kdf_lt p)
    (fun p _ _ => toy_kdf_lt p)
    toy_hmac_inj_key
    (by decide)

/-- C3 (confirmed): for every keystore that passes validation and decodes
its hex fields, whenever the MAC recomputed from the supplied password
differs from the stored MAC, `decrypt_wallet` fails with exactly
`DecryptionFailed` — and it does so for every possible behaviour of the
AEAD decryption function (quantified as `f`), which formalises that AEAD
decryption is never attempted on a MAC mismatch. -/
theorem mac_checked_before_aead (prim : Primitives)
    (f : Bytes → Bytes → Bytes → Option Bytes) (ks : Keystore) (password : String)
    (ct salt nonce storedMac : Bytes)
    (hv : keystore_validate ks = .ok ())
    (hct : keystore_encrypted_data ks = .ok ct)
    (hsalt : keystore_salt ks = .ok salt)
    (hnonce : keystore_nonce ks = .ok nonce)
    (hmac : keystore_mac ks = .ok storedMac)
    (hne : compute_mac prim (kdf_key prim password salt ks.crypto.kdfparams) ct nonce
      ≠ storedMac) :
    decrypt_wallet { prim with aeadDecrypt := f } ks password
      = .error .decryptionFailed := by
  have hprim : ∀ pw s p, kdf_key { prim with aeadDecrypt := f } pw s p
      = kdf_key prim pw s p := by
    intro pw s p
    cases p <;> rfl
  have hcm : ∀ k c n, compute_mac { prim with aeadDecrypt := f } k c n
      = compute_mac prim k c n := fun _ _ _ => rfl
  unfold decrypt_wallet
  simp only [hv, hct, hsalt, hnonce, hmac, hprim, hcm]
  rw [if_pos hne]

set_option maxRecDepth 40000 in
/-- C3 (witness): the MAC-first theorem applied to the toy primitives with
an adversarial AEAD decryptor and a keystore whose MAC was overwritten. -/
theorem mac_checked_before_aead_witness :
    decrypt_wallet { toyPrim with aeadDecrypt := fun _ _ _ => none }
      ksSmallTamperedMac "pw" = .error .decryptionFailed :=
  mac_checked_before_aead toyPrim (fun _ _ _ => none) ksSmallTamperedMac "pw"
    (encCiphertext toyPrim wSmall "pw" true [1] [2]) [1] [2] [0]
    (by decide) (by decide) (by decide) (by decide) (by decide) (by decide)

set_option maxRecDepth 40000 in
/-- C4 (counterexample): `decrypt_wallet` never compares `metadata.address`
with the decrypted wallet.  Overwriting the metadata address of a valid
keystore with a different valid address leaves the MAC intact (it covers
only ciphertext and nonce), and decryption then succeeds and returns a
wallet whose address disagrees with the keystore metadata — the claim says
this must fail. -/
theorem metadata_address_not_checked_cex :
    decrypt_wallet toyPrim ksSmallTamperedAddress "pw" = .ok (eraseKey wSmall)
    ∧ (eraseKey wSmall).address = ADDR_A
    ∧ ksSmallTamperedAddress.metadata.address = ADDR_B
    ∧ ADDR_A ≠ ADDR_B := by
  exact ⟨by decide, rfl, rfl, by decide⟩

/-- C4 (amended): after a successful decryption the restored wallet itself
is re-validated (`Wallet::validate`: address format, network support,
derivation-path syntax), but the keystore's `metadata.address` is never
compared against the decrypted wallet, so decryption can return a wallet
whose address differs from `metadata.address`.  This theorem states the
re-validation half; the counterexample exhibits the non-comparison. -/
theorem decrypt_revalidates_wallet (prim : Primitives) (ks : Keystore)
    (password : String) (w : Wallet)
    (h : decrypt_wallet prim ks password = .ok w) :
    wallet_validate w = .ok () := by
  unfold decrypt_wallet at h
  split at h
  · exact Except.noConfusion h
  split at h
  · exact Except.noConfusion h
  split at h
  · exact Except.noConfusion h
  split at h
  · exact Except.noConfusion h
  split at h
  · exact Except.noConfusion h
  simp only [ne_eq] at h
  split at h
  · exact Except.noConfusion h
  split at h
  · exact Except.noConfusion h
  split at h
  · exact Except.noConfusion h
  split at h
  · exact Except.noConfusion h
  rename_i u heq
  cases u
  cases h
  exact heq

set_option maxRecDepth 40000 in
/-- C4 (witness): the re-validation theorem applied to the concrete
successful decryption from the tampered-metadata keystore. -/
theorem decrypt_revalidates_wallet_witness :
    wallet_validate (eraseKey wSmall) = .ok () :=
  decrypt_revalidates_wallet toyPrim ksSmallTamperedAddress "pw" (eraseKey wSmall)
    (by decide)

/-- C5 (counterexample): the address the claim states,
`0x9858efffd232b4033e47d90003d41ec34ecaeda94`, has 41 hex digits and is
not the address the program produces: the repository's own test constant
(`EXPECTED_ADDRESS` in `src/models/wallet.rs`) is
`0x9858effd232b4033e47d90003d41ec34ecaeda94`, which differs from the
claimed string even case-insensitively; the claimed string does not even
pass the program's own address validator. -/
theorem known_vector_cex :
    (from_mnemonic toyHd TEST_MNEMONIC "mainnet" none 0).map Wallet.address
      = .ok EXPECTED_ADDRESS
    ∧ asciiLower EXPECTED_ADDRESS ≠ asciiLower SPEC_CLAIMED_ADDRESS
    ∧ (strip0x SPEC_CLAIMED_ADDRESS.data).length = 41
    ∧ validate_ethereum_address SPEC_CLAIMED_ADDRESS = .error .invalidAddressFormat := by
  exact ⟨by decide, by decide, by decide, by decide⟩

/-- C5 (amended): with the expected address corrected to the repository's
test constant `0x9858effd232b4033e47d90003d41ec34ecaeda94`:
`from_mnemonic` on the test phrase yields that primary address
(case-insensitively), and `derive_address 1` yields a distinct address and
is deterministic.  The external derivation facts (the vector itself and
path acceptance) are hypotheses on the abstract HD primitives; the
repository's test pins the index-0 value. -/
theorem known_vector (hd : HdPrimitives) (now : Nat)
    (hValid : hd.validMnemonic TEST_MNEMONIC = true)
    (hV0 : hd.addrAt TEST_MNEMONIC PATH_INDEX0 = some EXPECTED_ADDRESS)
    (hV1 : hd.addrAt TEST_MNEMONIC PATH_INDEX1 = some INDEX1_ADDRESS)
    (hPath1 : hd.pathValid PATH_INDEX1 = true) :
    ∃ w d, from_mnemonic hd TEST_MNEMONIC "mainnet" none now = .ok w
      ∧ asciiLower w.address = asciiLower EXPECTED_ADDRESS
      ∧ derive_address hd w 1 = .ok d
      ∧ d.address ≠ w.address
      ∧ derive_address hd w 1 = derive_address hd w 1 := by
  have hbase0 : DEFAULT_DERIVATION_PATH ++ "/0" = PATH_INDEX0 := rfl
  have hbase1 : DEFAULT_DERIVATION_PATH ++ "/" ++ Nat.repr 1 = PATH_INDEX1 := rfl
  refine ⟨⟨TEST_MNEMONIC, some (hd.toSeed TEST_MNEMONIC), EXPECTED_ADDRESS,
    DEFAULT_DERIVATION_PATH, "mainnet", now, none⟩, ⟨INDEX1_ADDRESS, 1, PATH_INDEX1⟩,
    ?_, rfl, ?_, (by decide : INDEX1_ADDRESS ≠ EXPECTED_ADDRESS), rfl⟩
  · simp only [from_mnemonic, hValid, hbase0, hV0, if_true]
  · simp only [derive_address, hbase1, hPath1, hV1, if_true,
      show TEST_MNEMONIC.isEmpty = false by decide]
    rfl

/-- C5 (witness): the amended known-vector theorem applied to the tabulated
HD instance. -/
theorem known_vector_witness :
    ∃ w d, from_mnemonic toyHd TEST_MNEMONIC "mainnet" none 0 = .ok w
      ∧ asciiLower w.address = asciiLower EXPECTED_ADDRESS
      ∧ derive_address toyHd w 1 = .ok d
      ∧ d.address ≠ w.address
      ∧ derive_address toyHd w 1 = derive_address toyHd w 1 :=
  known_vector toyHd 0 (by decide) (by decide) (by decide) (by decide)

/-- C6 (counterexample): when a parsed keystore has an unsupported cipher
but also an invalid metadata address, `Keystore::validate` reports the
address error (kind `InvalidAddressFormat`) because the address check runs
first — not the claimed `InvalidKeystoreSchema`. -/
theorem schema_rejection_cex :
    from_json toyParse "bad-both" = .error .invalidAddressFormat
    ∧ ksBadBoth.crypto.cipher ≠ "aes-256-gcm"
    ∧ WErr.invalidAddressFormat ≠ WErr.invalidKeystoreSchema := by
  exact ⟨by decide, by decide, by decide⟩

/-- C6 (amended): for every JSON text whose parsed keystore passes the
checks preceding the cipher check (non-empty version, valid address
format, supported network), a cipher different from `"aes-256-gcm"` makes
`from_json` fail with `InvalidKeystoreSchema`; and when additionally the
cipher and KDF literals and the four hex fields are fine, a zero-valued
KDF parameter field makes `from_json` fail with `InvalidKeystoreSchema`.
`from_json` takes no cryptographic primitives at all, so no KDF, MAC or
AEAD operation is involved in either case. -/
theorem schema_rejection (parse : String → Option Keystore) (s : String) (ks : Keystore)
    (hp : parse s = some ks)
    (hver : ks.version.isEmpty = false)
    (haddr : validate_ethereum_address ks.metadata.address = .ok ())
    (hnet : is_supported_network ks.metadata.network = true) :
    (ks.crypto.cipher ≠ "aes-256-gcm" → from_json parse s = .error .invalidKeystoreSchema)
    ∧ (∀ ct salt nonce mac : Bytes,
        ks.crypto.cipher = "aes-256-gcm"
        → (ks.crypto.kdf = "argon2id" ∨ ks.crypto.kdf = "pbkdf2")
        → keystore_encrypted_data ks = .ok ct
        → keystore_salt ks = .ok salt
        → keystore_nonce ks = .ok nonce
        → keystore_mac ks = .ok mac
        → hasZeroKdfField ks.crypto.kdfparams = true
        → from_json parse s = .error .invalidKeystoreSchema) := by
  have hfj : from_json parse s
      = match keystore_validate ks with
        | .error e => .error e
        | .ok _ => .ok ks := by
    unfold from_json
    rw [hp]
  constructor
  · intro hcipher
    rw [hfj]
    have hkv : keystore_validate ks = .error .invalidKeystoreSchema := by
      simp [keystore_validate, hver, haddr, hnet, hcipher]
    rw [hkv]
  · intro ct salt nonce mac hcip hkdf hed hs hn hm hzero
    rw [hfj]
    have hkdfne : ¬(ks.crypto.kdf ≠ "argon2id" ∧ ks.crypto.kdf ≠ "pbkdf2") := by
      rcases hkdf with hk | hk <;> simp [hk]
    have hkv : keystore_validate ks = .error .invalidKeystoreSchema := by
      simp only [keystore_validate, hver, haddr, hnet, hcip, hkdfne, hed, hs, hn, hm,
        Bool.false_eq_true, if_false, ite_false, ne_eq, not_true_eq_false,
        not_false_eq_true, ite_true, if_true]
      split
      · rename_i dk memory time parallelism sal heqp
        rw [heqp] at hzero
        simp only [hasZeroKdfField, Bool.or_eq_true, decide_eq_true_eq] at hzero
        have hz : memory = 0 ∨ time = 0 ∨ parallelism = 0 := by tauto
        by_cases hdk : dk = KEY_LENGTH
        · rw [if_neg (fun hc => hc hdk), if_pos hz]
        · rw [if_pos hdk]
      · rename_i dk c prf sal heqp
        rw [heqp] at hzero
        simp only [hasZeroKdfField, decide_eq_true_eq] at hzero
        by_cases hdk : dk = KEY_LENGTH
        · rw [if_neg (fun hc => hc hdk), if_pos hzero]
        · rw [if_pos hdk]
    rw [hkv]

/-- C6 (witness): the amended schema-rejection theorem applied to a parsed
keystore with a bad cipher and one with a zero Argon2 memory field. -/
theorem schema_rejection_witness :
    from_json toyParse "bad-cipher" = .error .invalidKeystoreSchema
    ∧ from_json toyParse "zero-kdf" = .error .invalidKeystoreSchema :=
  ⟨(schema_rejection toyParse "bad-cipher" ksBadCipher (by decide) (by decide)
      (by decide) (by decide)).1 (by decide),
    (schema_rejection toyParse "zero-kdf" ksZeroKdf (by decide) (by decide)
      (by decide) (by decide)).2 [0] [0] [0] [0] (by decide) (Or.inl (by decide))
      (by decide) (by decide) (by decide) (by decide) (by decide)⟩

/-- C7 (confirmed): `from_private_key` fails with `InvalidPrivateKey` for
every input whose stripped hex payload has length other than 64, contains
a non-hex character (the external parser rejects non-hex strings — taken
as the hypothesis `hHexFail`), or is not accepted as a secp256k1 scalar;
for every accepted 64-character key it succeeds with `has_mnemonic` false,
and `derive_address` on the result fails with a typed error for every
index, never producing an address. -/
theorem from_private_key_contract (hd : HdPrimitives) (s network : String)
    (aliasName : Option String) (now : Nat)
    (hHexFail : ∀ k : String, k.data.all isAsciiHexDigit = false
      → hd.privKeyAddr k = none) :
    ((String.mk (strip0x s.data)).data.length ≠ 64
        ∨ (String.mk (strip0x s.data)).data.all isAsciiHexDigit = false
        ∨ hd.privKeyAddr (String.mk (strip0x s.data)) = none
      → from_private_key hd s network aliasName now = .error .invalidPrivateKey)
    ∧ (∀ a, hd.privKeyAddr (String.mk (strip0x s.data)) = some a
        → (String.mk (strip0x s.data)).data.length = 64
        → ∃ w, from_private_key hd s network aliasName now = .ok w
            ∧ has_mnemonic w = false
            ∧ ∀ i, derive_address hd w i = .error .kdfFailed) := by
  constructor
  · intro hdisj
    simp only [from_private_key]
    rcases hdisj with hlen | hhex | hnone
    · rw [if_pos hlen]
    · have hnone := hHexFail _ hhex
      by_cases hlen : (String.mk (strip0x s.data)).data.length ≠ 64
      · rw [if_pos hlen]
      · rw [if_neg hlen, hnone]
    · by_cases hlen : (String.mk (strip0x s.data)).data.length ≠ 64
      · rw [if_pos hlen]
      · rw [if_neg hlen, hnone]
  · intro a ha hlen
    refine ⟨⟨"", some [], a, DEFAULT_DERIVATION_PATH, network, now, aliasName⟩,
      ?_, rfl, fun i => rfl⟩
    simp only [from_private_key]
    rw [if_neg (fun hc => hc hlen), ha]

/-- C7 (witness): the private-key contract applied to the tabulated HD
instance: a 3-character input is rejected, and the sample 64-hex key is
accepted with no mnemonic and failing derivation. -/
theorem from_private_key_contract_witness :
    from_private_key toyHd "abc" "mainnet" none 0 = .error .invalidPrivateKey
    ∧ ∃ w, from_private_key toyHd SAMPLE_PRIVKEY "mainnet" none 0 = .ok w
        ∧ has_mnemonic w = false
        ∧ ∀ i, derive_address toyHd w i = .error .kdfFailed :=
  ⟨(from_private_key_contract toyHd "abc" "mainnet" none 0 toyHd_privKey_nonhex).1
      (Or.inl (by decide)),
    (from_private_key_contract toyHd SAMPLE_PRIVKEY "mainnet" none 0
      toyHd_privKey_nonhex).2 PRIVKEY_ADDRESS (by decide) (by decide)⟩

/-- C8 (confirmed): for every wallet produced by `from_mnemonic` or
`generate`, `derive_address 0` succeeds and returns exactly the stored
primary address.  External facts as hypotheses: the empty phrase is not a
valid mnemonic, and the base path extended with `/0` is accepted by the
path parser; the identification of the constructor's default derivation
with base-path-plus-`/0` is modelled from the spec (section 4.2). -/
theorem primary_address_invariant (hd : HdPrimitives) (m network : String)
    (aliasName : Option String) (now : Nat) (wordCount : Nat) (entropy : Bytes)
    (w : Wallet)
    (hEmpty : hd.validMnemonic "" = false)
    (hPath0 : hd.pathValid PATH_INDEX0 = true)
    (h : from_mnemonic hd m network aliasName now = .ok w
      ∨ generate hd wordCount entropy network aliasName now = .ok w) :
    ∃ d, derive_address hd w 0 = .ok d ∧ d.address = w.address := by
  have hfm : ∃ m2, from_mnemonic hd m2 network aliasName now = .ok w := by
    rcases h with h | h
    · exact ⟨m, h⟩
    · unfold generate at h
      split at h
      · split at h
        · exact ⟨_, h⟩
        · exact Except.noConfusion h
      · exact Except.noConfusion h
  obtain ⟨m2, hfm⟩ := hfm
  unfold from_mnemonic at hfm
  split at hfm
  case isTrue hvm =>
    split at hfm
    case _ addr haddr =>
      injection hfm with hw
      subst hw
      have hm2 : m2.isEmpty = false := by
        cases hmm : m2.isEmpty
        · rfl
        · exfalso
          have hm2e : m2 = "" := (String.isEmpty_iff m2).mp hmm
          rw [hm2e, hEmpty] at hvm
          exact Bool.noConfusion hvm
      have hbase0 : DEFAULT_DERIVATION_PATH ++ "/" ++ Nat.repr 0 = PATH_INDEX0 := rfl
      rw [show DEFAULT_DERIVATION_PATH ++ "/0" = PATH_INDEX0 from rfl] at haddr
      refine ⟨⟨addr, 0, PATH_INDEX0⟩, ?_, rfl⟩
      simp only [derive_address, hm2, hbase0, hPath0, haddr, if_true,
        Bool.false_eq_true, if_false]
    case _ => exact Except.noConfusion hfm
  case isFalse => exact Except.noConfusion hfm

/-- C8 (witness): the primary-address invariant applied to the tabulated
HD instance on the test vector. -/
theorem primary_address_invariant_witness :
    ∃ d, derive_address toyHd vectorWallet 0 = .ok d
      ∧ d.address = vectorWallet.address :=
  primary_address_invariant toyHd TEST_MNEMONIC "mainnet" none 0 12 [] vectorWallet
    (by decide) (by decide) (Or.inl (by decide))

/-- C9 (confirmed): `validate_ethereum_address` accepts exactly the
strings whose payload after an optional `0x` prefix is 40 hex characters
of either case — so unprefixed or uppercase addresses pass — and both
`Wallet::validate` and `Keystore::validate` gate their address field
through it. -/
theorem address_validation_lenient :
    (∀ s : String, validate_ethereum_address s = .ok ()
      ↔ ((strip0x s.data).length = 40 ∧ (strip0x s.data).all isAsciiHexDigit = true))
    ∧ validate_ethereum_address "742D35CC6634C0532925A3B8D57C2B9B3F0B9A99" = .ok ()
    ∧ validate_ethereum_address "0x742D35CC6634C0532925A3B8D57C2B9B3F0B9A99" = .ok ()
    ∧ (∀ w : Wallet, wallet_validate w = .ok ()
        → validate_ethereum_address w.address = .ok ())
    ∧ (∀ ks : Keystore, keystore_validate ks = .ok ()
        → validate_ethereum_address ks.metadata.address = .ok ()) := by
  refine ⟨?_, by decide, by decide, ?_, ?_⟩
  · intro s
    unfold validate_ethereum_address
    by_cases hlen : (strip0x s.data).length = 40
    · by_cases hhex : (strip0x s.data).all isAsciiHexDigit = true
      · simp [hlen, hhex]
      · simp [hlen, hhex]
    · simp [hlen]
  · intro w hw
    exact ((wallet_validate_ok_iff w).mp hw).1
  · intro ks h
    unfold keystore_validate at h
    split at h
    · exact Except.noConfusion h
    split at h
    · exact Except.noConfusion h
    · rename_i u heq
      cases u
      exact heq

/-- C9 (witness): the acceptance characterisation applied to an uppercase
`0x`-prefixed address. -/
theorem address_validation_lenient_witness :
    validate_ethereum_address "0xABCDEF0123456789abcdef0123456789ABCDEF01" = .ok () :=
  (address_validation_lenient.1 _).mpr (by decide)

/-- C10 (confirmed): every wallet returned by `from_private_key` carries
the empty placeholder as its master key (`private_key_bytes` returns
`some []`, not the imported key), and because serialization skips that
field (hypothesis `hskip`, mirroring `#[serde(skip)]`), the keystore
produced by `encrypt_wallet` from such a wallet is identical to the one
produced from the key-erased wallet — the raw key is never stored. -/
theorem private_key_import_no_key_material (hd : HdPrimitives) (s network : String)
    (aliasName : Option String) (now : Nat) (w : Wallet)
    (h : from_private_key hd s network aliasName now = .ok w) :
    private_key_bytes w = some []
    ∧ w.masterPrivateKey = some []
    ∧ ∀ (prim : Primitives) (password : String) (useArgon2 : Bool)
        (salt nonce : Bytes) (now2 : String),
        (∀ w2 k, prim.serializeWallet { w2 with masterPrivateKey := k }
          = prim.serializeWallet w2)
        → encrypt_wallet prim w password useArgon2 salt nonce now2
            = encrypt_wallet prim (eraseKey w) password useArgon2 salt nonce now2 := by
  simp only [from_private_key] at h
  split at h
  · exact Except.noConfusion h
  split at h
  case _ a ha =>
    injection h with hw
    subst hw
    refine ⟨rfl, rfl, ?_⟩
    intro prim password useArgon2 salt nonce now2 hskip
    have hser : prim.serializeWallet
        (⟨"", some [], a, DEFAULT_DERIVATION_PATH, network, now, aliasName⟩ : Wallet)
        = prim.serializeWallet
          (eraseKey ⟨"", some [], a, DEFAULT_DERIVATION_PATH, network, now, aliasName⟩) :=
      (hskip ⟨"", some [], a, DEFAULT_DERIVATION_PATH, network, now, aliasName⟩ none).symm
    rw [encrypt_wallet_eq, encrypt_wallet_eq]
    simp only [encOut, encMac, compute_mac, encCiphertext]
    rw [hser]
    rfl
  case _ => exact Except.noConfusion h

/-- C10 (witness): the key-material theorem applied to the sample key. -/
theorem private_key_import_no_key_material_witness :
    private_key_bytes pkWallet = some []
    ∧ pkWallet.masterPrivateKey = some []
    ∧ ∀ (prim : Primitives) (password : String) (useArgon2 : Bool)
        (salt nonce : Bytes) (now2 : String),
        (∀ w2 k, prim.serializeWallet { w2 with masterPrivateKey := k }
          = prim.serializeWallet w2)
        → encrypt_wallet prim pkWallet password useArgon2 salt nonce now2
            = encrypt_wallet prim (eraseKey pkWallet) password useArgon2 salt nonce now2 :=
  private_key_import_no_key_material toyHd SAMPLE_PRIVKEY "mainnet" none 0 pkWallet
    (by decide)

end Web3Wallet
